import Mathlib

/-!
Verification of the insights-ai measurement pipeline: a shallow embedding of
the audit extraction/categorization code (`src/services/auditExtractor.ts`),
the metric extraction and retrying fetch (`src/services/psiService.ts`),
and the median aggregation (`src/runner.ts`, `src/utils/metrics.ts`),
together with theorems settling the spec claims about them.
-/

namespace InsightsAI

/--
A JavaScript `number`. Payloads parsed from JSON only ever carry finite
values, but the TypeScript `number` type (and hence the domain of the
embedded functions) also contains `NaN` and the two infinities, so we model
them explicitly.
-/
inductive JsNum where
  | finite (q : ℚ)
  | nan
  | posInf
  | negInf
deriving DecidableEq

/-- JavaScript `<` restricted to numbers: any comparison with `NaN` is false. -/
def JsNum.ltb : JsNum → JsNum → Bool
  | .nan, _ => false
  | _, .nan => false
  | .finite a, .finite b => a < b
  | .finite _, .posInf => true
  | .finite _, .negInf => false
  | .posInf, _ => false
  | .negInf, .negInf => false
  | .negInf, _ => true

/-- JavaScript `Math.round`: round half toward positive infinity. -/
def JsNum.round : JsNum → JsNum
  | .finite q => .finite (⌊q + 1/2⌋ : ℤ)
  | .nan => .nan
  | .posInf => .posInf
  | .negInf => .negInf

/-- Multiplication of a JavaScript number by the constant 100. -/
def JsNum.mul100 : JsNum → JsNum
  | .finite q => .finite (q * 100)
  | .nan => .nan
  | .posInf => .posInf
  | .negInf => .negInf

/--
An untrusted JSON value, as found in the positions the source types as
`unknown` (audit `details`, `metricSavings` values, bounding rectangles, …).
Objects are insertion-ordered association lists, as produced by `JSON.parse`
and iterated by `Object.entries`.
-/
inductive JsonVal where
  | null
  | bool (b : Bool)
  | num (n : JsNum)
  | str (s : String)
  | arr (xs : List JsonVal)
  | obj (fields : List (String × JsonVal))

/-- JavaScript truthiness test (`!v` is `jsFalsy v`). -/
def jsFalsy : JsonVal → Bool
  | .null => true
  | .bool b => !b
  | .num (.finite q) => q = 0
  | .num .nan => true
  | .num _ => false
  | .str s => s = ""
  | .arr _ => false
  | .obj _ => false

/-- `typeof v === 'object'` for a non-`null`-checked value: objects and arrays. -/
def isObjLike : JsonVal → Bool
  | .arr _ => true
  | .obj _ => true
  | _ => false

/--
Property lookup `v[key]` on a JSON value: named lookup on an object, `undefined`
(`none`) everywhere else (the field names the source reads are never numeric,
so array index access does not arise).
-/
def jsGet (v : JsonVal) (key : String) : Option JsonVal :=
  match v with
  | .obj fields => (fields.find? (fun f => f.1 = key)).map (·.2)
  | _ => none

/-- Lookup on an optional value, `v?.[key]` style: `undefined` stays `undefined`. -/
def jsGetOpt (v : Option JsonVal) (key : String) : Option JsonVal :=
  match v with
  | none => none
  | some w => jsGet w key

/--
`Object.entries v`: the fields of an object in insertion order; for an array,
the index/value pairs; empty for primitives (those are filtered out by the
`typeof v === 'object'` guards before any `Object.entries` call in the source).
-/
def jsEntries : JsonVal → List (String × JsonVal)
  | .obj fields => fields
  | .arr xs => xs.enum.map (fun p => (toString p.1, p.2))
  | _ => []

/--
The falsy-or-not-an-object test `!v || typeof v !== 'object'` applied to a
possibly-`undefined` value, used as the early-return guard of every nested
parser in `auditExtractor.ts`.
-/
def notAnObject (v : Option JsonVal) : Bool :=
  match v with
  | none => true
  | some w => jsFalsy w || !isObjLike w

/-! ## Audit data model (`types/psi.ts`) -/

/-- The seven recognized values of `scoreDisplayMode` (`types/psi.ts`, `PsiAudit`). -/
inductive ScoreDisplayMode where
  | numeric | binary | manual | informative | notApplicable | error | metricSavings
deriving DecidableEq

/-- The recognized `details.type` values (`types/psi.ts`, `PsiAuditDetails`). -/
inductive DetailsType where
  | table | list | opportunity | debugdata | treemapData
deriving DecidableEq

/-- The recognized heading `valueType` values. -/
inductive ValueType where
  | text | bytes | ms | url | node
deriving DecidableEq

/-- A parsed table heading. -/
structure PsiHeading where
  key : String
  label : String
  valueType : ValueType
deriving DecidableEq

/-- A parsed source reference. -/
structure PsiSource where
  type : String
  value : String
deriving DecidableEq

/-- A complete, all-numeric bounding rectangle (`DOMElement.boundingRect`). -/
structure BoundingRect where
  top : JsNum
  bottom : JsNum
  left : JsNum
  right : JsNum
  width : JsNum
  height : JsNum
deriving DecidableEq

/-- A parsed DOM element reference; its `type` field is always the literal `"node"`. -/
structure DOMElement where
  path : String
  selector : String
  snippet : String
  nodeLabel : String
  boundingRect : Option BoundingRect
  lhId : Option String
deriving DecidableEq

/-- A parsed loosely-typed audit table row (`PsiAuditItem`). -/
structure PsiAuditItem where
  url : Option String
  wastedBytes : Option JsNum
  wastedMs : Option JsNum
  totalBytes : Option JsNum
  node : Option DOMElement
  source : Option PsiSource
  resourceSize : Option JsNum
  transferSize : Option JsNum
  score : Option JsNum
  label : Option String
  groupLabel : Option String
deriving DecidableEq

/-- A parsed details summary. -/
structure PsiSummary where
  wastedBytes : Option JsNum
  wastedMs : Option JsNum
deriving DecidableEq

/-- Parsed audit details (`PsiAuditDetails`). -/
structure PsiAuditDetails where
  type : DetailsType
  headings : Option (List PsiHeading)
  items : List PsiAuditItem
  overallSavingsMs : Option JsNum
  overallSavingsBytes : Option JsNum
  summary : Option PsiSummary
deriving DecidableEq

/-- A parsed, validated audit entity (`PsiAudit`); `score = none` models `null`. -/
structure PsiAudit where
  id : String
  title : String
  description : String
  score : Option JsNum
  scoreDisplayMode : ScoreDisplayMode
  displayValue : Option String
  numericValue : Option JsNum
  numericUnit : Option String
  metricSavings : Option (List (String × JsNum))
  details : Option PsiAuditDetails
  errorMessage : Option String
  warnings : Option (List String)
deriving DecidableEq

/-!
## Raw audit entries

A raw audit entry is an arbitrary value of the audits map. The source's type
guard `isValidAuditObject` (`auditExtractor.ts` lines 144–158) accepts exactly
the non-`null` values with `typeof == 'object'` and declares the field types
that the subsequent reads trust (`title?: string`, `score?: number | null`,
`numericValue?: number`, …); the fields the source keeps as `unknown` and
checks at runtime (`metricSavings`, `details`) are kept as raw `JsonVal`.
We mirror this: an entry is either such an object, read through the guard's
declared field types (a raw array, which also passes `typeof == 'object'`,
reads every named field as `undefined` and so is the all-absent object), or a
primitive/`null`, which fails the guard.
-/

/-- The fields of a raw audit object, typed as the source's guard declares them.
`score`'s outer `Option` is field presence; the inner `Option` is JS `null`. -/
structure RawAuditFields where
  title : Option String
  description : Option String
  score : Option (Option JsNum)
  scoreDisplayMode : Option String
  displayValue : Option String
  numericValue : Option JsNum
  numericUnit : Option String
  metricSavings : Option JsonVal
  details : Option JsonVal
  errorMessage : Option String
  warnings : Option (List String)

/-- A raw entry of the audits map: an object (or array, read as the all-absent
object), or a primitive/`null` value, which fails `isValidAuditObject`. -/
inductive RawAudit where
  | obj (f : RawAuditFields)
  | nonObject

/-- Type guard `isValidAuditObject`: `typeof obj === 'object' && obj !== null`. -/
def isValidAuditObject : RawAudit → Bool
  | .obj _ => true
  | .nonObject => false

/-! ## Field readers: the per-field runtime type checks of `auditExtractor.ts` -/

/-- `typeof v[key] === 'number' ? v[key] : undefined`. -/
def numField (v : JsonVal) (key : String) : Option JsNum :=
  match jsGet v key with
  | some (.num n) => some n
  | _ => none

/-- `typeof v[key] === 'string' ? v[key] : undefined`. -/
def strFieldOpt (v : JsonVal) (key : String) : Option String :=
  match jsGet v key with
  | some (.str s) => some s
  | _ => none

/-- `typeof v[key] === 'string' ? v[key] : ''`. -/
def strFieldD (v : JsonVal) (key : String) : String :=
  match jsGet v key with
  | some (.str s) => s
  | _ => ""

/-! ## Parsers (`auditExtractor.ts`) -/

/-- `parseScoreDisplayMode`: one of the seven recognized modes, else `"binary"`. -/
def parseScoreDisplayMode : Option String → ScoreDisplayMode
  | some "numeric" => .numeric
  | some "binary" => .binary
  | some "manual" => .manual
  | some "informative" => .informative
  | some "notApplicable" => .notApplicable
  | some "error" => .error
  | some "metricSavings" => .metricSavings
  | _ => .binary

/-- `parseMetricSavings`: keep the object's numeric-valued entries; if none
remain, the whole field is `undefined` rather than an empty map. -/
def parseMetricSavings (savings : Option JsonVal) : Option (List (String × JsNum)) :=
  if notAnObject savings then none
  else
    match savings with
    | some w =>
      let result := (jsEntries w).filterMap fun e =>
        match e.2 with
        | .num n => some (e.1, n)
        | _ => none
      if result.length > 0 then some result else none
    | none => none

/-- `parseDetailsType`: one of the five recognized type strings, else `"table"`. -/
def parseDetailsType : Option JsonVal → DetailsType
  | some (.str "table") => .table
  | some (.str "list") => .list
  | some (.str "opportunity") => .opportunity
  | some (.str "debugdata") => .debugdata
  | some (.str "treemap-data") => .treemapData
  | _ => .table

/-- `parseValueType`: one of the five recognized value types, else `"text"`. -/
def parseValueType : Option JsonVal → ValueType
  | some (.str "text") => .text
  | some (.str "bytes") => .bytes
  | some (.str "ms") => .ms
  | some (.str "url") => .url
  | some (.str "node") => .node
  | _ => .text

/-- `parseSummary`. -/
def parseSummary (summary : Option JsonVal) : Option PsiSummary :=
  if notAnObject summary then none
  else
    match summary with
    | some w => some { wastedBytes := numField w "wastedBytes", wastedMs := numField w "wastedMs" }
    | none => none

/-- `parseSource`. -/
def parseSource (source : Option JsonVal) : Option PsiSource :=
  if notAnObject source then none
  else
    match source with
    | some w => some { type := strFieldD w "type", value := strFieldD w "value" }
    | none => none

/-- `parseBoundingRect`: accepted only as a complete, all-numeric 6-tuple;
any missing or wrong-typed field discards the entire rectangle. -/
def parseBoundingRect (rect : Option JsonVal) : Option BoundingRect :=
  if notAnObject rect then none
  else
    match rect with
    | some w =>
      match numField w "top", numField w "bottom", numField w "left",
            numField w "right", numField w "width", numField w "height" with
      | some t, some b, some l, some r, some wd, some h =>
        some { top := t, bottom := b, left := l, right := r, width := wd, height := h }
      | _, _, _, _, _, _ => none
    | none => none

/-- `parseDOMElement`: requires `node.type === 'node'`, else `undefined`. -/
def parseDOMElement (node : Option JsonVal) : Option DOMElement :=
  if notAnObject node then none
  else
    match node with
    | some w =>
      match jsGet w "type" with
      | some (.str "node") =>
        some { path := strFieldD w "path", selector := strFieldD w "selector",
               snippet := strFieldD w "snippet", nodeLabel := strFieldD w "nodeLabel",
               boundingRect := parseBoundingRect (jsGet w "boundingRect"),
               lhId := strFieldOpt w "lhId" }
      | _ => none
    | none => none

/-- `parseAuditItem`: a non-object row becomes the empty record; every field is
read through its own type check, absence represented as `undefined`. -/
def parseAuditItem (item : JsonVal) : PsiAuditItem :=
  if notAnObject (some item) then
    { url := none, wastedBytes := none, wastedMs := none, totalBytes := none,
      node := none, source := none, resourceSize := none, transferSize := none,
      score := none, label := none, groupLabel := none }
  else
    { url := strFieldOpt item "url", wastedBytes := numField item "wastedBytes",
      wastedMs := numField item "wastedMs", totalBytes := numField item "totalBytes",
      node := parseDOMElement (jsGet item "node"), source := parseSource (jsGet item "source"),
      resourceSize := numField item "resourceSize", transferSize := numField item "transferSize",
      score := numField item "score", label := strFieldOpt item "label",
      groupLabel := strFieldOpt item "groupLabel" }

/-- `parseAuditItems`: non-arrays yield `[]`. The source maps `parseAuditItem`
under a per-item try/catch and filters out the failures; `parseAuditItem`
never throws, so the filter keeps every row and the map is the whole effect. -/
def parseAuditItems (items : Option JsonVal) : List PsiAuditItem :=
  match items with
  | some (.arr xs) => xs.map parseAuditItem
  | _ => []

/-- `parseHeadings`: non-arrays yield `undefined`; non-object rows are dropped. -/
def parseHeadings (headings : Option JsonVal) : Option (List PsiHeading) :=
  match headings with
  | some (.arr xs) =>
    some (xs.filterMap fun h =>
      if notAnObject (some h) then none
      else some { key := strFieldD h "key", label := strFieldD h "label",
                  valueType := parseValueType (jsGet h "valueType") })
  | _ => none

/-- `parseAuditDetails`. -/
def parseAuditDetails (details : Option JsonVal) : Option PsiAuditDetails :=
  if notAnObject details then none
  else
    match details with
    | some w =>
      some { type := parseDetailsType (jsGet w "type"),
             headings := parseHeadings (jsGet w "headings"),
             items := parseAuditItems (jsGet w "items"),
             overallSavingsMs := numField w "overallSavingsMs",
             overallSavingsBytes := numField w "overallSavingsBytes",
             summary := parseSummary (jsGet w "summary") }
    | none => none

/-- A `ValidationError` (`errors/index.ts`): malformed top-level input. -/
inductive ValidationError where
  | mk (msg : String)
deriving DecidableEq

/-- `parseAudit`: fails with a `ValidationError` exactly when the raw entry
fails `isValidAuditObject`; every field is otherwise defensively defaulted. -/
def parseAudit (id : String) (rawAudit : RawAudit) : Except ValidationError PsiAudit :=
  match rawAudit with
  | .nonObject => .error (.mk ("Invalid audit object for " ++ id))
  | .obj f =>
    .ok { id := id,
          title := f.title.getD ("Audit " ++ id),
          description := f.description.getD "",
          score := f.score.getD none,
          scoreDisplayMode := parseScoreDisplayMode f.scoreDisplayMode,
          displayValue := f.displayValue,
          numericValue := f.numericValue,
          numericUnit := f.numericUnit,
          metricSavings := parseMetricSavings f.metricSavings,
          details := parseAuditDetails f.details,
          errorMessage := f.errorMessage,
          warnings := f.warnings }

/-! ## Categorization (`auditExtractor.ts`, `categorizeAudits`) -/

/-- `score < 1` on a nullable score; in the source this comparison is only
evaluated under the `score !== null` guard (JS `<` is false on `NaN`). -/
def scoreLtOne : Option JsNum → Bool
  | some s => s.ltb (.finite 1)
  | none => false

/-- The three output buckets of `categorizeAudits`, together with the ids the
per-item catch handler logged a warning for. -/
structure Categorized where
  opportunities : List PsiAudit
  diagnostics : List PsiAudit
  passedAudits : List PsiAudit
  warnings : List String
deriving DecidableEq

/-- `categorizeAudits`: iterate the entries in order; a per-entry parse failure
is caught and logged, the entry lands in no bucket, and the loop continues.
The source loop pushes onto the bucket arrays in iteration order; here the
head entry's contribution is consed onto the categorization of the tail, which
produces the same in-order bucket lists. -/
def categorizeAudits : List (String × RawAudit) → Categorized
  | [] => { opportunities := [], diagnostics := [], passedAudits := [], warnings := [] }
  | (id, rawAudit) :: rest =>
    let r := categorizeAudits rest
    match parseAudit id rawAudit with
    | .error _ => { r with warnings := id :: r.warnings }
    | .ok audit =>
      if audit.scoreDisplayMode = .metricSavings ∧ audit.score ≠ none ∧ scoreLtOne audit.score then
        { r with opportunities := audit :: r.opportunities }
      else if audit.scoreDisplayMode = .informative then
        { r with diagnostics := audit :: r.diagnostics }
      else if audit.score = some (.finite 1) ∨ audit.score = none then
        { r with passedAudits := audit :: r.passedAudits }
      else
        { r with diagnostics := audit :: r.diagnostics }

/-! ## Core metric extraction -/

/-- `audit?.numericValue` after the `as { numericValue?: number }` cast: a
primitive entry reads as `undefined`. -/
def rawNumericValue : RawAudit → Option JsNum
  | .obj f => f.numericValue
  | .nonObject => none

/-- Lookup of an audit id in the audits map. -/
def auditsLookup (audits : List (String × RawAudit)) (id : String) : Option RawAudit :=
  (audits.find? (fun e => e.1 = id)).map (·.2)

/-- `getMetricValue` (inside `extractCoreMetrics`): `audits[id]?.numericValue ?? 0`. -/
def getMetricValue (audits : List (String × RawAudit)) (auditId : String) : JsNum :=
  ((auditsLookup audits auditId).bind rawNumericValue).getD (.finite 0)

/-- The `metrics` record of `ComprehensivePsiData`. -/
structure CoreMetrics where
  lcp : JsNum
  fcp : JsNum
  cls : JsNum
  tbt : JsNum
  si : JsNum
  tti : JsNum
deriving DecidableEq

/-- `extractCoreMetrics`. -/
def extractCoreMetrics (audits : List (String × RawAudit)) : CoreMetrics :=
  { lcp := getMetricValue audits "largest-contentful-paint",
    fcp := getMetricValue audits "first-contentful-paint",
    cls := getMetricValue audits "cumulative-layout-shift",
    tbt := getMetricValue audits "total-blocking-time",
    si := getMetricValue audits "speed-index",
    tti := getMetricValue audits "interactive" }

/-! ## Top-level extraction (`extractComprehensiveData`) -/

/-- A device strategy. -/
inductive Strategy where
  | desktop | mobile
deriving DecidableEq

/-- The string form of a strategy. -/
def strategyStr : Strategy → String
  | .desktop => "desktop"
  | .mobile => "mobile"

/-- A Lighthouse category: `score` is `number | null` (`none` models `null`). -/
structure LighthouseCategory where
  score : Option JsNum
deriving DecidableEq

/-- The categories record; only `performance` is required by the source's
top-level check, the other three are optional. -/
structure LighthouseCategories where
  performance : Option LighthouseCategory
  accessibility : Option LighthouseCategory
  bestPractices : Option LighthouseCategory
  seo : Option LighthouseCategory

/-- Lighthouse run environment metadata (passed through unchanged). -/
structure LhEnvironment where
  networkUserAgent : String
  hostUserAgent : String
  benchmarkIndex : JsNum
deriving DecidableEq

/-- The top-level `lighthouseResult`: `audits` and `categories.performance`
may be absent (the two conditions of the top-level validity check); the raw
audit entries themselves are untrusted. -/
structure LighthouseResult where
  audits : Option (List (String × RawAudit))
  categories : LighthouseCategories
  lighthouseVersion : String
  fetchTime : String
  environment : Option LhEnvironment

/-- The normalized output record (`ComprehensivePsiData`). -/
structure ComprehensivePsiData where
  url : String
  strategy : Strategy
  performanceScore : JsNum
  metrics : CoreMetrics
  opportunities : List PsiAudit
  diagnostics : List PsiAudit
  passedAudits : List PsiAudit
  accessibilityScore : Option JsNum
  bestPracticesScore : Option JsNum
  seoScore : Option JsNum
  lighthouseVersion : String
  fetchTime : String
  environment : Option LhEnvironment
deriving DecidableEq

/-- `getOptionalCategoryScore`: `round(score*100)` when the category exists and
its score is non-`null`, else `undefined`. -/
def getOptionalCategoryScore (category : Option LighthouseCategory) : Option JsNum :=
  match category with
  | none => none
  | some cat =>
    match cat.score with
    | none => none
    | some s => some (s.mul100.round)

/-- `extractComprehensiveData`: throws `ValidationError` when `audits` or
`categories.performance` is absent; otherwise extracts metrics, categorizes
the audits, and defaults every optional field. `performanceScore` is
`Math.round((performanceCategory.score ?? 0) * 100)`. -/
def extractComprehensiveData (lighthouseResult : LighthouseResult) (url : String)
    (strategy : Strategy) : Except ValidationError ComprehensivePsiData :=
  match lighthouseResult.audits, lighthouseResult.categories.performance with
  | some audits, some performanceCategory =>
    let metrics := extractCoreMetrics audits
    let c := categorizeAudits audits
    .ok { url := url, strategy := strategy,
          performanceScore := ((performanceCategory.score.getD (.finite 0)).mul100).round,
          metrics := metrics,
          opportunities := c.opportunities,
          diagnostics := c.diagnostics,
          passedAudits := c.passedAudits,
          accessibilityScore := getOptionalCategoryScore lighthouseResult.categories.accessibility,
          bestPracticesScore := getOptionalCategoryScore lighthouseResult.categories.bestPractices,
          seoScore := getOptionalCategoryScore lighthouseResult.categories.seo,
          lighthouseVersion := lighthouseResult.lighthouseVersion,
          fetchTime := lighthouseResult.fetchTime,
          environment := lighthouseResult.environment }
  | _, _ => .error (.mk "Invalid Lighthouse result: missing required audit data")

/-! ## Display-pair metric extraction (`psiService.ts`, `extractMetric`) -/

/-- An entry of the typed audits map as `extractMetric` reads it
(`types/psi.ts`, `LighthouseAudit`): both fields optional. -/
structure LighthouseAudit where
  displayValue : Option String
  numericValue : Option JsNum
deriving DecidableEq

/-- `audits[id]` on the typed audits map. -/
def lhAuditsLookup (audits : List (String × LighthouseAudit)) (id : String) :
    Option LighthouseAudit :=
  (audits.find? (fun e => e.1 = id)).map (·.2)

/-- The `Metric` display pair of `types/psi.ts`, over the full JS number domain
(`extractMetric`'s claimed contract quantifies over all `number`s, including
non-finite ones). -/
structure MetricJs where
  display : String
  numeric : JsNum
deriving DecidableEq

/-- `extractMetric` (`psiService.ts`):
`{ display: audits[id]?.displayValue ?? 'n/a', numeric: audits[id]?.numericValue ?? 0 }`. -/
def extractMetric (audits : List (String × LighthouseAudit)) (id : String) : MetricJs :=
  { display := ((lhAuditsLookup audits id).bind (·.displayValue)).getD "n/a",
    numeric := ((lhAuditsLookup audits id).bind (·.numericValue)).getD (.finite 0) }

/-! ## Retrying fetch (`psiService.ts`, `fetchPsiDataWithRetry` / `runPsi`)

The network is modelled as an oracle giving the outcome of each (0-indexed)
attempt; the trace records the result, the number of attempts performed and
the backoff delays (in milliseconds) waited between attempts.
-/

/-- Maximum number of times to try a failed PSI API request (`MAX_API_RETRIES`). -/
def MAX_API_RETRIES : Nat := 3

/-- The backoff unit: the source waits `attempt * 500` ms after failure `attempt`. -/
def baseDelayMs : Nat := 500

/-- An `ApiError` (`errors/index.ts`) wrapping its cause. -/
inductive ApiError (E : Type) where
  | mk (msg : String) (cause : E)

/-- The observable outcome of the retry loop. -/
structure RetryTrace (P E : Type) where
  result : Except E P
  attemptsMade : Nat
  delays : List Nat

/-- The `while (true)` body of `fetchPsiDataWithRetry`, at the point where
`attempt` requests have already failed: issue request number `attempt`; on
failure bump the counter, rethrow once it reaches `MAX_API_RETRIES`, else wait
`attempt * 500` ms (with the bumped counter) and loop. -/
def fetchLoop {P E : Type} (oracle : Nat → Except E P) (attempt : Nat) : RetryTrace P E :=
  match oracle attempt with
  | .ok p => { result := .ok p, attemptsMade := attempt + 1, delays := [] }
  | .error e =>
    if h : attempt + 1 ≥ MAX_API_RETRIES then
      { result := .error e, attemptsMade := attempt + 1, delays := [] }
    else
      let r := fetchLoop oracle (attempt + 1)
      { result := r.result, attemptsMade := r.attemptsMade,
        delays := (attempt + 1) * baseDelayMs :: r.delays }
termination_by MAX_API_RETRIES - attempt
decreasing_by simp only [MAX_API_RETRIES] at h ⊢; omega

/-- `fetchPsiDataWithRetry`: the loop entered with `attempt = 0`. -/
def fetchPsiDataWithRetry {P E : Type} (oracle : Nat → Except E P) : RetryTrace P E :=
  fetchLoop oracle 0

/-- The fetch step of `runPsi` (production path): a failure escaping
`fetchPsiDataWithRetry` is wrapped and rethrown as `ApiError`. -/
def runPsiFetch {P E : Type} (oracle : Nat → Except E P) : Except (ApiError E) P :=
  match (fetchPsiDataWithRetry oracle).result with
  | .ok p => .ok p
  | .error e => .error (.mk "Failed to fetch PageSpeed Insights data" e)

/-! ## Median (`utils/metrics.ts`) -/

/-- `median`: copy, sort ascending (`(a, b) => a - b`), take the middle element
for odd length, the mean of the two central elements for even length. Claimed
only for non-empty arrays (on `[]` the source indexes out of range and yields
`NaN`; the `getD` default is never read on non-empty input). -/
def median (values : List ℚ) : ℚ :=
  let sorted := List.insertionSort (fun a b : ℚ => a ≤ b) values
  let mid := sorted.length / 2
  if sorted.length % 2 ≠ 0 then sorted.getD mid 0
  else (sorted.getD (mid - 1) 0 + sorted.getD mid 0) / 2

/-! ## Aggregation (`runner.ts`, `executeRuns`) -/

/-- The `Metric` display pair as the aggregation layer uses it; medians and
score sorting are claimed for (finite) numeric values, modelled as `ℚ`. -/
structure Metric where
  display : String
  numeric : ℚ
deriving DecidableEq

/-- A completed run (`types/psi.ts`, `RunResult`). -/
structure RunResult where
  url : String
  strategy : Strategy
  runNumber : Nat
  score : ℚ
  lcp : Metric
  fcp : Metric
  cls : Metric
  tbt : Metric
  auditData : ComprehensivePsiData
deriving DecidableEq

/-- An aggregated group (`types/psi.ts`, `MedianResult`); `url` and `strategy`
are plain strings, read back out of the group key. -/
structure MedianResult where
  url : String
  strategy : String
  runs : Nat
  medianScore : ℚ
  medianLcp : ℚ
  medianFcp : ℚ
  medianCls : ℚ
  medianTbt : ℚ
  individualRuns : List RunResult
  auditData : ComprehensivePsiData
deriving DecidableEq

/-- `Math.round` on a finite value: round half toward positive infinity. -/
def jsRoundQ (q : ℚ) : ℚ := ((⌊q + 1/2⌋ : ℤ) : ℚ)

/-- The group key of a run: `` `${res.url}|${res.strategy}` ``. -/
def keyOf (r : RunResult) : String := r.url ++ "|" ++ strategyStr r.strategy

/-- One step of the grouping `Map`: append the run to its key's list, keeping
first-seen key order (JS `Map` preserves insertion order). -/
def addToGroups (gs : List (String × List RunResult)) (key : String) (r : RunResult) :
    List (String × List RunResult) :=
  match gs with
  | [] => [(key, [r])]
  | (k, rs) :: rest =>
    if k = key then (k, rs ++ [r]) :: rest
    else (k, rs) :: addToGroups rest key r

/-- The grouping loop of `executeRuns`: group results by `url|strategy` key. -/
def groupRuns (results : List RunResult) : List (String × List RunResult) :=
  results.foldl (fun gs r => addToGroups gs (keyOf r) r) []

/-- JS `String.prototype.split` with a single-character separator, on the
character list: `"a|b" ↦ ["a", "b"]`, `"|a" ↦ ["", "a"]`, `"a|" ↦ ["a", ""]`. -/
def splitChar (c : Char) : List Char → List (List Char)
  | [] => [[]]
  | x :: xs =>
    if x = c then [] :: splitChar c xs
    else
      match splitChar c xs with
      | [] => [[x]]
      | h :: t => (x :: h) :: t

/-- `s.split(c)` on strings. -/
def jsSplit (s : String) (c : Char) : List String :=
  (splitChar c s.data).map (fun l => String.mk l)

/-- A placeholder run for the (never-read on non-empty groups) list default. -/
def defaultRun : RunResult :=
  { url := "", strategy := .desktop, runNumber := 0, score := 0,
    lcp := { display := "", numeric := 0 }, fcp := { display := "", numeric := 0 },
    cls := { display := "", numeric := 0 }, tbt := { display := "", numeric := 0 },
    auditData := { url := "", strategy := .desktop, performanceScore := .finite 0,
                   metrics := { lcp := .finite 0, fcp := .finite 0, cls := .finite 0,
                                tbt := .finite 0, si := .finite 0, tti := .finite 0 },
                   opportunities := [], diagnostics := [], passedAudits := [],
                   accessibilityScore := none, bestPracticesScore := none, seoScore := none,
                   lighthouseVersion := "", fetchTime := "", environment := none } }

/-- The per-group body of `executeRuns`: recover `[url, strategy]` from the key
by `key.split('|')`, compute the five medians independently (`medianScore`
rounded, the others fractional), and take `auditData` from the run at index
`floor(n/2)` of the runs sorted ascending by score. -/
def aggregateGroup (key : String) (runs : List RunResult) : MedianResult :=
  let parts := jsSplit key '|'
  let url := parts.getD 0 ""
  let strategy := parts.getD 1 ""
  let scores := runs.map (·.score)
  let lcps := runs.map (·.lcp.numeric)
  let fcps := runs.map (·.fcp.numeric)
  let clss := runs.map (·.cls.numeric)
  let tbts := runs.map (·.tbt.numeric)
  let medianIndex := runs.length / 2
  let sortedRuns := List.insertionSort (fun a b : RunResult => a.score ≤ b.score) runs
  let medianRun := sortedRuns.getD medianIndex defaultRun
  { url := url, strategy := strategy, runs := runs.length,
    medianScore := jsRoundQ (median scores),
    medianLcp := median lcps, medianFcp := median fcps,
    medianCls := median clss, medianTbt := median tbts,
    individualRuns := runs, auditData := medianRun.auditData }

/-- The group-and-reduce tail of `executeRuns` on the collected results. -/
def executeRunsAggregate (results : List RunResult) : List MedianResult :=
  (groupRuns results).map (fun g => aggregateGroup g.1 g.2)

/-! ## Spec-side definitions and theorems -/

/-- The three output buckets of categorization. -/
inductive Bucket where
  | opportunities | diagnostics | passedAudits
deriving DecidableEq

/-- The classification rule as the spec states it: `metricSavings` with a
non-null score below 1 is an opportunity; otherwise `informative` is a
diagnostic; otherwise a perfect or null score is a passed audit; otherwise
(failed, non-opportunity) a diagnostic. -/
def specBucket (a : PsiAudit) : Bucket :=
  if a.scoreDisplayMode = .metricSavings ∧ a.score ≠ none ∧ scoreLtOne a.score then
    .opportunities
  else if a.scoreDisplayMode = .informative then
    .diagnostics
  else if a.score = some (.finite 1) ∨ a.score = none then
    .passedAudits
  else
    .diagnostics

/-- The well-formed input set: the audits whose entries parse successfully. -/
def parsedAudits (audits : List (String × RawAudit)) : List PsiAudit :=
  audits.filterMap (fun e => (parseAudit e.1 e.2).toOption)

/-- On a successfully parsed head entry, one categorization step prepends the
audit to exactly the bucket `specBucket` selects, leaving the others and the
warnings untouched. -/
lemma categorizeAudits_cons_ok {id : String} {rawAudit : RawAudit} {audit : PsiAudit}
    (rest : List (String × RawAudit)) (hp : parseAudit id rawAudit = .ok audit) :
    categorizeAudits ((id, rawAudit) :: rest)
      = { opportunities := (if specBucket audit = .opportunities then [audit] else [])
            ++ (categorizeAudits rest).opportunities,
          diagnostics := (if specBucket audit = .diagnostics then [audit] else [])
            ++ (categorizeAudits rest).diagnostics,
          passedAudits := (if specBucket audit = .passedAudits then [audit] else [])
            ++ (categorizeAudits rest).passedAudits,
          warnings := (categorizeAudits rest).warnings } := by
  by_cases h1 : audit.scoreDisplayMode = .metricSavings ∧ audit.score ≠ none
      ∧ scoreLtOne audit.score
  · simp [categorizeAudits, hp, specBucket, h1]
  · by_cases h2 : audit.scoreDisplayMode = .informative
    · simp [categorizeAudits, hp, specBucket, h1, h2]
    · by_cases h3 : audit.score = some (.finite 1) ∨ audit.score = none
      · simp [categorizeAudits, hp, specBucket, h1, h2, h3]
      · simp [categorizeAudits, hp, specBucket, h1, h2, h3]

/-- Claim C1: `categorizeAudits` places each successfully parsed audit into
exactly one of the three buckets, the one selected by the spec's decision
rule (`specBucket`); the buckets are the corresponding filters of the parsed
audits, and for every audit value the bucket occurrence counts sum to its
count among the parsed audits — a partition with no overlap. -/
theorem categorize_partitions_by_rule (audits : List (String × RawAudit)) :
    (categorizeAudits audits).opportunities
      = (parsedAudits audits).filter (fun a => specBucket a = .opportunities)
    ∧ (categorizeAudits audits).diagnostics
      = (parsedAudits audits).filter (fun a => specBucket a = .diagnostics)
    ∧ (categorizeAudits audits).passedAudits
      = (parsedAudits audits).filter (fun a => specBucket a = .passedAudits)
    ∧ ∀ a : PsiAudit,
        (categorizeAudits audits).opportunities.count a
          + (categorizeAudits audits).diagnostics.count a
          + (categorizeAudits audits).passedAudits.count a
        = (parsedAudits audits).count a := by
  have key : ∀ l : List (String × RawAudit),
      (categorizeAudits l).opportunities
        = (parsedAudits l).filter (fun a => specBucket a = .opportunities)
      ∧ (categorizeAudits l).diagnostics
        = (parsedAudits l).filter (fun a => specBucket a = .diagnostics)
      ∧ (categorizeAudits l).passedAudits
        = (parsedAudits l).filter (fun a => specBucket a = .passedAudits) := by
    intro l
    induction l with
    | nil => exact ⟨rfl, rfl, rfl⟩
    | cons e rest ih =>
      obtain ⟨id, rawAudit⟩ := e
      obtain ⟨ih1, ih2, ih3⟩ := ih
      cases hp : parseAudit id rawAudit with
      | error err =>
        refine ⟨?_, ?_, ?_⟩ <;>
          simp [categorizeAudits, parsedAudits, hp, Except.toOption, ih1, ih2, ih3]
      | ok audit =>
        rw [categorizeAudits_cons_ok rest hp]
        have hpar : parsedAudits ((id, rawAudit) :: rest) = audit :: parsedAudits rest := by
          simp [parsedAudits, hp, Except.toOption]
        refine ⟨?_, ?_, ?_⟩ <;>
          · rw [hpar, List.filter_cons]
            by_cases hb : specBucket audit = .opportunities <;>
              by_cases hb2 : specBucket audit = .diagnostics <;>
                by_cases hb3 : specBucket audit = .passedAudits <;>
                  simp_all [ih1, ih2, ih3]
  obtain ⟨h1, h2, h3⟩ := key audits
  refine ⟨h1, h2, h3, fun a => ?_⟩
  have hz : ∀ b : Bucket, specBucket a ≠ b →
      ((parsedAudits audits).filter (fun x => specBucket x = b)).count a = 0 := by
    intro b hb
    rw [List.count_eq_zero]
    intro hmem
    exact hb (of_decide_eq_true (List.mem_filter.mp hmem).2)
  rw [h1, h2, h3]
  cases hb : specBucket a with
  | opportunities =>
    rw [List.count_filter (by simp [hb]), hz .diagnostics (by simp [hb]),
      hz .passedAudits (by simp [hb])]
    omega
  | diagnostics =>
    rw [hz .opportunities (by simp [hb]), List.count_filter (by simp [hb]),
      hz .passedAudits (by simp [hb])]
    omega
  | passedAudits =>
    rw [hz .opportunities (by simp [hb]), hz .diagnostics (by simp [hb]),
      List.count_filter (by simp [hb])]
    omega

/-- Claim C2: `categorizeAudits` is total (it is a Lean function) and isolates
per-entry failures: `parseAudit` succeeds exactly on the entries passing
`isValidAuditObject`; the ids of the failing entries are exactly the logged
warnings, in order; and every bucket equals the corresponding bucket of
categorizing only the well-formed entries — a malformed audit lands in no
bucket and never aborts categorization of the rest. -/
theorem categorize_isolates_failures (audits : List (String × RawAudit)) :
    (∀ (id : String) (rawAudit : RawAudit),
        (parseAudit id rawAudit).isOk = isValidAuditObject rawAudit)
    ∧ (categorizeAudits audits).warnings
        = (audits.filter (fun e => !isValidAuditObject e.2)).map (fun e => e.1)
    ∧ (categorizeAudits audits).opportunities
        = (categorizeAudits (audits.filter (fun e => isValidAuditObject e.2))).opportunities
    ∧ (categorizeAudits audits).diagnostics
        = (categorizeAudits (audits.filter (fun e => isValidAuditObject e.2))).diagnostics
    ∧ (categorizeAudits audits).passedAudits
        = (categorizeAudits (audits.filter (fun e => isValidAuditObject e.2))).passedAudits := by
  refine ⟨fun id rawAudit => by cases rawAudit <;> rfl, ?_⟩
  induction audits with
  | nil => exact ⟨rfl, rfl, rfl, rfl⟩
  | cons e rest ih =>
    obtain ⟨id, rawAudit⟩ := e
    obtain ⟨ihw, ih1, ih2, ih3⟩ := ih
    cases rawAudit with
    | nonObject =>
      have hp : parseAudit id RawAudit.nonObject
          = .error (.mk ("Invalid audit object for " ++ id)) := rfl
      refine ⟨?_, ?_, ?_, ?_⟩ <;>
        simp [categorizeAudits, hp, isValidAuditObject, List.filter_cons, ihw, ih1, ih2, ih3]
    | obj f =>
      have hp : parseAudit id (RawAudit.obj f) = .ok _ := rfl
      have hfilter : ((id, RawAudit.obj f) :: rest).filter (fun e => isValidAuditObject e.2)
          = (id, RawAudit.obj f) :: rest.filter (fun e => isValidAuditObject e.2) := by
        simp [List.filter_cons, isValidAuditObject]
      rw [categorizeAudits_cons_ok rest hp, hfilter,
        categorizeAudits_cons_ok (rest.filter (fun e => isValidAuditObject e.2)) hp]
      refine ⟨?_, ?_, ?_, ?_⟩ <;>
        simp [List.filter_cons, isValidAuditObject, ihw, ih1, ih2, ih3]

/-- The per-field numeric type check reads `some n` exactly when the raw field
holds the number `n`. -/
lemma numField_some_iff (w : JsonVal) (k : String) (n : JsNum) :
    numField w k = some n ↔ jsGet w k = some (.num n) := by
  unfold numField
  cases h : jsGet w k with
  | none => simp
  | some v => cases v <;> simp_all

/-- Claim C9: `parseBoundingRect` returns the full six-field record exactly
when the raw value carries all six fields as numbers (and then the record is
exactly those six numbers); in every other case — not an object, or any one
field missing or non-numeric — it returns `undefined`, never a partial
rectangle. -/
theorem parseBoundingRect_all_or_nothing (rect : Option JsonVal) :
    (∀ r : BoundingRect,
        parseBoundingRect rect = some r
          ↔ jsGetOpt rect "top" = some (.num r.top)
            ∧ jsGetOpt rect "bottom" = some (.num r.bottom)
            ∧ jsGetOpt rect "left" = some (.num r.left)
            ∧ jsGetOpt rect "right" = some (.num r.right)
            ∧ jsGetOpt rect "width" = some (.num r.width)
            ∧ jsGetOpt rect "height" = some (.num r.height))
    ∧ ((parseBoundingRect rect).isSome
        ↔ (∃ t, jsGetOpt rect "top" = some (.num t))
          ∧ (∃ b, jsGetOpt rect "bottom" = some (.num b))
          ∧ (∃ l, jsGetOpt rect "left" = some (.num l))
          ∧ (∃ rr, jsGetOpt rect "right" = some (.num rr))
          ∧ (∃ w, jsGetOpt rect "width" = some (.num w))
          ∧ (∃ h, jsGetOpt rect "height" = some (.num h))) := by
  have hmain : ∀ r : BoundingRect,
      parseBoundingRect rect = some r
        ↔ jsGetOpt rect "top" = some (.num r.top)
          ∧ jsGetOpt rect "bottom" = some (.num r.bottom)
          ∧ jsGetOpt rect "left" = some (.num r.left)
          ∧ jsGetOpt rect "right" = some (.num r.right)
          ∧ jsGetOpt rect "width" = some (.num r.width)
          ∧ jsGetOpt rect "height" = some (.num r.height) := by
    intro r
    obtain ⟨rt, rb, rl, rr, rw, rh⟩ := r
    cases rect with
    | none => simp [parseBoundingRect, jsGetOpt, notAnObject]
    | some w =>
      cases w with
      | obj fields =>
        simp only [jsGetOpt, ← numField_some_iff]
        simp only [parseBoundingRect, notAnObject, jsFalsy, isObjLike, Bool.false_or,
          Bool.not_true, if_false]
        cases h1 : numField (JsonVal.obj fields) "top" <;>
          cases h2 : numField (JsonVal.obj fields) "bottom" <;>
            cases h3 : numField (JsonVal.obj fields) "left" <;>
              cases h4 : numField (JsonVal.obj fields) "right" <;>
                cases h5 : numField (JsonVal.obj fields) "width" <;>
                  cases h6 : numField (JsonVal.obj fields) "height" <;>
                    simp_all
      | null => simp [parseBoundingRect, jsGetOpt, jsGet, notAnObject, jsFalsy]
      | bool b => simp [parseBoundingRect, jsGetOpt, jsGet, notAnObject, jsFalsy, isObjLike]
      | num n => simp [parseBoundingRect, jsGetOpt, jsGet, notAnObject, jsFalsy, isObjLike]
      | str s => simp [parseBoundingRect, jsGetOpt, jsGet, notAnObject, jsFalsy, isObjLike]
      | arr xs =>
        simp only [jsGetOpt, jsGet]
        simp [parseBoundingRect, notAnObject, jsFalsy, isObjLike, numField, jsGet]
  refine ⟨hmain, ?_, ?_⟩
  · intro hs
    obtain ⟨r, hr⟩ := Option.isSome_iff_exists.mp hs
    rw [hmain r] at hr
    exact ⟨⟨_, hr.1⟩, ⟨_, hr.2.1⟩, ⟨_, hr.2.2.1⟩, ⟨_, hr.2.2.2.1⟩,
      ⟨_, hr.2.2.2.2.1⟩, ⟨_, hr.2.2.2.2.2⟩⟩
  · rintro ⟨⟨t, ht⟩, ⟨b, hb⟩, ⟨l, hl⟩, ⟨rr, hrr⟩, ⟨w, hw⟩, ⟨h, hh⟩⟩
    have := (hmain ⟨t, b, l, rr, w, h⟩).mpr ⟨ht, hb, hl, hrr, hw, hh⟩
    simp [this]

/-- Claim C7: `extractComprehensiveData` fails (with a `ValidationError`)
exactly when the top-level result lacks the audits map or the performance
category — these are the only failure conditions; every input with both
present parses successfully (all nested parsing is total and defaulting). -/
theorem extract_fails_iff_top_level_missing (lr : LighthouseResult) (url : String)
    (strategy : Strategy) :
    ((∃ e : ValidationError, extractComprehensiveData lr url strategy = .error e)
      ↔ lr.audits = none ∨ lr.categories.performance = none)
    ∧ ((∃ d : ComprehensivePsiData, extractComprehensiveData lr url strategy = .ok d)
      ↔ lr.audits ≠ none ∧ lr.categories.performance ≠ none) := by
  cases ha : lr.audits <;> cases hp : lr.categories.performance <;>
    simp [extractComprehensiveData, ha, hp]

/-- Claim C10: a present performance category with a `null` score passes the
top-level check and yields `performanceScore = 0`, exactly as a true zero
score does — while `getOptionalCategoryScore` (used for the accessibility /
best-practices / SEO categories) maps a `null` or absent score to
`undefined`, not 0. -/
theorem null_performance_score_reads_as_zero (lr lr0 : LighthouseResult)
    (url : String) (strategy : Strategy)
    (audits audits0 : List (String × RawAudit))
    (ha : lr.audits = some audits)
    (hp : lr.categories.performance = some { score := none })
    (ha0 : lr0.audits = some audits0)
    (hp0 : lr0.categories.performance = some { score := some (.finite 0) }) :
    (∃ d, extractComprehensiveData lr url strategy = .ok d
        ∧ d.performanceScore = .finite 0)
    ∧ (∃ d0, extractComprehensiveData lr0 url strategy = .ok d0
        ∧ d0.performanceScore = .finite 0)
    ∧ getOptionalCategoryScore (some { score := none }) = none
    ∧ getOptionalCategoryScore none = none := by
  obtain ⟨au, cats, lv, ft, env⟩ := lr
  obtain ⟨perf, acc, bp, seo⟩ := cats
  obtain ⟨au0, cats0, lv0, ft0, env0⟩ := lr0
  obtain ⟨perf0, acc0, bp0, seo0⟩ := cats0
  dsimp only at ha hp ha0 hp0
  subst ha hp ha0 hp0
  have hz : ((JsNum.finite 0).mul100).round = JsNum.finite 0 := by
    have h0 : ⌊(0 : ℚ) * 100 + 1/2⌋ = 0 := by
      rw [Int.floor_eq_iff] <;> norm_num
    simp [JsNum.mul100, JsNum.round, h0]
    all_goals norm_num
  exact ⟨⟨_, rfl, hz⟩, ⟨_, rfl, hz⟩, rfl, rfl⟩

/-- A concrete result whose performance category is present with a `null` score. -/
def lrNullScore : LighthouseResult :=
  { audits := some [],
    categories := { performance := some { score := none }, accessibility := none,
                    bestPractices := none, seo := none },
    lighthouseVersion := "10.0.0", fetchTime := "t", environment := none }

/-- A concrete result whose performance category carries a true zero score. -/
def lrZeroScore : LighthouseResult :=
  { audits := some [],
    categories := { performance := some { score := some (.finite 0) }, accessibility := none,
                    bestPractices := none, seo := none },
    lighthouseVersion := "10.0.0", fetchTime := "t", environment := none }

/-- Witness for claim C10 at a concrete result pair. -/
theorem null_performance_score_reads_as_zero_witness :
    (∃ d, extractComprehensiveData lrNullScore "https://a.com" .desktop = .ok d
        ∧ d.performanceScore = .finite 0)
    ∧ (∃ d0, extractComprehensiveData lrZeroScore "https://a.com" .desktop = .ok d0
        ∧ d0.performanceScore = .finite 0)
    ∧ getOptionalCategoryScore (some { score := none }) = none
    ∧ getOptionalCategoryScore none = none :=
  null_performance_score_reads_as_zero lrNullScore lrZeroScore "https://a.com" .desktop
    [] [] rfl rfl rfl rfl

/-- The spec's claimed contract for the scalar metric extractor, from its
words: the audit's `numericValue` when present *and finite*, else 0. -/
def specMetricNumeric (audits : List (String × LighthouseAudit)) (id : String) : JsNum :=
  match (lhAuditsLookup audits id).bind (·.numericValue) with
  | some (.finite q) => .finite q
  | _ => .finite 0

/-- An audits map whose metric audit carries a non-finite `numericValue`. -/
def nanAudits : List (String × LighthouseAudit) :=
  [("largest-contentful-paint", { displayValue := none, numericValue := some .nan })]

/-- Counterexample to claim C6 as stated: on an audit whose `numericValue` is
`NaN` the spec's contract demands 0, but the source's `?? 0` only replaces a
missing value, so the extractor returns `NaN`. -/
theorem extractMetric_nonfinite_counterexample :
    (extractMetric nanAudits "largest-contentful-paint").numeric = .nan
    ∧ specMetricNumeric nanAudits "largest-contentful-paint" = .finite 0
    ∧ (extractMetric nanAudits "largest-contentful-paint").numeric
        ≠ specMetricNumeric nanAudits "largest-contentful-paint" := by
  refine ⟨rfl, rfl, ?_⟩
  decide

/-- Claim C6 amended: the scalar extractor returns the audit's `numericValue`
whenever it is present — finite or not — and 0 exactly when the audit or its
`numericValue` is missing; the display-pair variant returns `displayValue`
or the literal `"n/a"` when missing, and `numericValue` or 0 when missing.
Both the `psiService.ts` and the `auditExtractor.ts` extractors comply. -/
theorem extractMetric_defaults (audits : List (String × LighthouseAudit))
    (rawAudits : List (String × RawAudit)) (id : String) :
    (∀ v, (lhAuditsLookup audits id).bind (·.numericValue) = some v →
        (extractMetric audits id).numeric = v)
    ∧ ((lhAuditsLookup audits id).bind (·.numericValue) = none →
        (extractMetric audits id).numeric = .finite 0)
    ∧ (∀ s, (lhAuditsLookup audits id).bind (·.displayValue) = some s →
        (extractMetric audits id).display = s)
    ∧ ((lhAuditsLookup audits id).bind (·.displayValue) = none →
        (extractMetric audits id).display = "n/a")
    ∧ (∀ v, (auditsLookup rawAudits id).bind rawNumericValue = some v →
        getMetricValue rawAudits id = v)
    ∧ ((auditsLookup rawAudits id).bind rawNumericValue = none →
        getMetricValue rawAudits id = .finite 0) := by
  refine ⟨fun v h => ?_, fun h => ?_, fun s h => ?_, fun h => ?_, fun v h => ?_, fun h => ?_⟩ <;>
    simp [extractMetric, getMetricValue, h]

/-- Witness for the amended claim C6 at concrete inputs: the `NaN` value is
passed through and a missing audit defaults to 0 / `"n/a"`. -/
theorem extractMetric_defaults_witness :
    (extractMetric nanAudits "largest-contentful-paint").numeric = .nan
    ∧ (extractMetric nanAudits "largest-contentful-paint").display = "n/a"
    ∧ getMetricValue [] "speed-index" = .finite 0 :=
  ⟨(extractMetric_defaults nanAudits [] "largest-contentful-paint").1 .nan rfl,
   (extractMetric_defaults nanAudits [] "largest-contentful-paint").2.2.2.1 rfl,
   (extractMetric_defaults nanAudits [] "speed-index").2.2.2.2.2 rfl⟩

/-- Unfolding of the retry loop on a successful request. -/
lemma fetchLoop_ok {P E : Type} (oracle : Nat → Except E P) (attempt : Nat) (p : P)
    (h : oracle attempt = .ok p) :
    fetchLoop oracle attempt
      = { result := .ok p, attemptsMade := attempt + 1, delays := [] } := by
  rw [fetchLoop, h]

/-- Unfolding of the retry loop on the third (final) failed request. -/
lemma fetchLoop_err_last {P E : Type} (oracle : Nat → Except E P) (e : E)
    (h : oracle 2 = .error e) :
    fetchLoop oracle 2 = { result := .error e, attemptsMade := 3, delays := [] } := by
  rw [fetchLoop, h]
  simp [MAX_API_RETRIES]

/-- Unfolding of the retry loop on a failed request with budget remaining. -/
lemma fetchLoop_err_retry {P E : Type} (oracle : Nat → Except E P) (attempt : Nat) (e : E)
    (ha : attempt + 1 < MAX_API_RETRIES) (h : oracle attempt = .error e) :
    fetchLoop oracle attempt
      = { result := (fetchLoop oracle (attempt + 1)).result,
          attemptsMade := (fetchLoop oracle (attempt + 1)).attemptsMade,
          delays := (attempt + 1) * baseDelayMs :: (fetchLoop oracle (attempt + 1)).delays } := by
  rw [fetchLoop, h]
  simp only [MAX_API_RETRIES] at ha ⊢
  rw [dif_neg (by omega)]

/-- Claim C3: one measurement fetch makes at most `MAX_API_RETRIES = 3`
network attempts; if the first success is attempt `k` (1-indexed, `k ≤ 3`),
the payload is returned after exactly `k` attempts, having waited
`j × baseDelay` between failed attempt `j` and attempt `j + 1`; if all three
attempts fail, the last network error is wrapped and rethrown as `ApiError`. -/
theorem fetch_retry_contract {P E : Type} (oracle : Nat → Except E P) :
    (fetchPsiDataWithRetry oracle).attemptsMade ≤ MAX_API_RETRIES
    ∧ (∀ (k : Nat) (p : P), 1 ≤ k → k ≤ MAX_API_RETRIES →
        (∀ i, i + 1 < k → ∃ e, oracle i = .error e) →
        oracle (k - 1) = .ok p →
        fetchPsiDataWithRetry oracle
          = { result := .ok p, attemptsMade := k,
              delays := (List.range (k - 1)).map (fun i => (i + 1) * baseDelayMs) }
        ∧ runPsiFetch oracle = .ok p)
    ∧ (∀ e0 e1 e2, oracle 0 = .error e0 → oracle 1 = .error e1 → oracle 2 = .error e2 →
        fetchPsiDataWithRetry oracle
          = { result := .error e2, attemptsMade := 3,
              delays := [baseDelayMs, 2 * baseDelayMs] }
        ∧ runPsiFetch oracle
          = .error (.mk "Failed to fetch PageSpeed Insights data" e2)) := by
  refine ⟨?_, ?_, ?_⟩
  · unfold fetchPsiDataWithRetry
    cases h0 : oracle 0 with
    | ok p => rw [fetchLoop_ok oracle 0 p h0]; simp [MAX_API_RETRIES]
    | error e0 =>
      rw [fetchLoop_err_retry oracle 0 e0 (by simp [MAX_API_RETRIES]) h0]
      cases h1 : oracle 1 with
      | ok p => rw [fetchLoop_ok oracle 1 p h1]; simp [MAX_API_RETRIES]
      | error e1 =>
        rw [fetchLoop_err_retry oracle 1 e1 (by simp [MAX_API_RETRIES]) h1]
        cases h2 : oracle 2 with
        | ok p => rw [fetchLoop_ok oracle 2 p h2]; simp [MAX_API_RETRIES]
        | error e2 => rw [fetchLoop_err_last oracle e2 h2]; simp [MAX_API_RETRIES]
  · intro k p hk1 hk3 hfail hok
    simp only [MAX_API_RETRIES] at hk3
    have htrace : fetchPsiDataWithRetry oracle
        = { result := .ok p, attemptsMade := k,
            delays := (List.range (k - 1)).map (fun i => (i + 1) * baseDelayMs) } := by
      unfold fetchPsiDataWithRetry
      interval_cases k
      · rw [fetchLoop_ok oracle 0 p hok]
        rfl
      · obtain ⟨e0, he0⟩ := hfail 0 (by omega)
        rw [fetchLoop_err_retry oracle 0 e0 (by simp [MAX_API_RETRIES]) he0,
          fetchLoop_ok oracle 1 p hok]
        rfl
      · obtain ⟨e0, he0⟩ := hfail 0 (by omega)
        obtain ⟨e1, he1⟩ := hfail 1 (by omega)
        rw [fetchLoop_err_retry oracle 0 e0 (by simp [MAX_API_RETRIES]) he0,
          fetchLoop_err_retry oracle 1 e1 (by simp [MAX_API_RETRIES]) he1,
          fetchLoop_ok oracle 2 p hok]
        rfl
    exact ⟨htrace, by unfold runPsiFetch; rw [htrace]⟩
  · intro e0 e1 e2 h0 h1 h2
    have htrace : fetchPsiDataWithRetry oracle
        = { result := .error e2, attemptsMade := 3,
            delays := [baseDelayMs, 2 * baseDelayMs] } := by
      unfold fetchPsiDataWithRetry
      rw [fetchLoop_err_retry oracle 0 e0 (by simp [MAX_API_RETRIES]) h0,
        fetchLoop_err_retry oracle 1 e1 (by simp [MAX_API_RETRIES]) h1,
        fetchLoop_err_last oracle e2 h2]
      rfl
    exact ⟨htrace, by unfold runPsiFetch; rw [htrace]⟩

/-- An oracle that fails twice then succeeds, and one that always fails. -/
def flakyOracle : Nat → Except String Nat
  | 0 => .error "timeout0"
  | 1 => .error "timeout1"
  | _ => .ok 42

/-- The always-failing network oracle. -/
def deadOracle : Nat → Except String Nat := fun i => .error ("down" ++ toString i)

/-- Witness for claim C3: failing twice and succeeding on the third attempt
returns the payload after exactly 3 attempts with backoffs 500 ms then
1000 ms; three straight failures surface the last error as an `ApiError`. -/
theorem fetch_retry_contract_witness :
    (fetchPsiDataWithRetry flakyOracle
        = { result := .ok 42, attemptsMade := 3,
            delays := (List.range 2).map (fun i => (i + 1) * baseDelayMs) }
      ∧ runPsiFetch flakyOracle = .ok 42)
    ∧ (fetchPsiDataWithRetry deadOracle
        = { result := .error "down2", attemptsMade := 3,
            delays := [baseDelayMs, 2 * baseDelayMs] }
      ∧ runPsiFetch deadOracle
        = .error (.mk "Failed to fetch PageSpeed Insights data" "down2")) :=
  ⟨(fetch_retry_contract flakyOracle).2.1 3 42 (by omega) (by simp [MAX_API_RETRIES])
      (fun i hi => by
        match i with
        | 0 => exact ⟨"timeout0", rfl⟩
        | 1 => exact ⟨"timeout1", rfl⟩
        | n + 2 => omega) rfl,
   (fetch_retry_contract deadOracle).2.2 "down0" "down1" "down2" rfl rfl rfl⟩

/-- Sorting ascending is canonical: any sorted permutation of `l` is the
insertion sort of `l`. -/
lemma insertionSort_eq_of_sorted_perm (l s : List ℚ) (hperm : l.Perm s)
    (hsort : s.Sorted (fun a b : ℚ => a ≤ b)) :
    List.insertionSort (fun a b : ℚ => a ≤ b) l = s :=
  List.eq_of_perm_of_sorted ((List.perm_insertionSort _ l).trans hperm)
    (List.sorted_insertionSort _ l) hsort

/-- Claim C4: for a non-empty numeric array, `median` returns the middle
element of the ascending-sorted array for odd length and the mean of the two
central sorted elements for even length (stated against any sorted
permutation `s` of the input), and its value is invariant under any
reordering of the input. -/
theorem median_matches_sorted_middle (l s : List ℚ) (hne : l ≠ [])
    (hperm : l.Perm s) (hsort : s.Sorted (fun a b : ℚ => a ≤ b)) :
    (l.length % 2 = 1 → median l = s.getD (l.length / 2) 0)
    ∧ (l.length % 2 = 0 →
        median l = (s.getD (l.length / 2 - 1) 0 + s.getD (l.length / 2) 0) / 2)
    ∧ (∀ l2 : List ℚ, l.Perm l2 → median l = median l2) := by
  have hsorteq := insertionSort_eq_of_sorted_perm l s hperm hsort
  have hlen : s.length = l.length := hperm.length_eq.symm
  refine ⟨fun hodd => ?_, fun heven => ?_, fun l2 hp => ?_⟩
  · simp only [median, hsorteq, hlen, hodd]
    norm_num
  · simp only [median, hsorteq, hlen, heven]
    norm_num
  · have heq : List.insertionSort (fun a b : ℚ => a ≤ b) l
        = List.insertionSort (fun a b : ℚ => a ≤ b) l2 :=
      List.eq_of_perm_of_sorted
        ((List.perm_insertionSort _ l).trans (hp.trans (List.perm_insertionSort _ l2).symm))
        (List.sorted_insertionSort _ l) (List.sorted_insertionSort _ l2)
    simp only [median, heq, hp.length_eq]

/-- Witness for claim C4: `median [1,3,2] = 2` (odd) and
`median [1,2,3,4] = 5/2` (even), via the theorem at those inputs. -/
theorem median_matches_sorted_middle_witness :
    median [1, 3, 2] = 2 ∧ median [1, 2, 3, 4] = 5/2
    ∧ median [1, 3, 2] = median [2, 1, 3] := by
  refine ⟨?_, ?_, ?_⟩
  · have h := (median_matches_sorted_middle [1, 3, 2] [1, 2, 3] (by decide) (by decide)
      (by decide)).1 (by decide)
    simpa using h
  · have h := (median_matches_sorted_middle [1, 2, 3, 4] [1, 2, 3, 4] (by decide) (by decide)
      (by decide)).2.1 (by decide)
    rw [h]
    norm_num
  · exact (median_matches_sorted_middle [1, 3, 2] [1, 2, 3] (by decide) (by decide)
      (by decide)).2.2 [2, 1, 3] (by decide)

instance : IsTotal RunResult (fun a b => a.score ≤ b.score) :=
  ⟨fun a b => le_total a.score b.score⟩

instance : IsTrans RunResult (fun a b => a.score ≤ b.score) :=
  ⟨fun _ _ _ hab hbc => le_trans hab hbc⟩

/-- Claim C5: for a group of runs, the aggregate's `auditData` comes from the
single run at index `floor(n/2)` of the runs sorted ascending by score (a
sorted permutation of the group, chosen once by score order); `medianScore`
is the rounded median of the scores while the four metric medians are
unrounded; run count and individual runs are the group's own. -/
theorem aggregate_median_run_and_rounding (key : String) (runs : List RunResult)
    (hne : runs ≠ []) :
    (runs.Perm (List.insertionSort (fun a b : RunResult => a.score ≤ b.score) runs)
      ∧ (List.insertionSort (fun a b : RunResult => a.score ≤ b.score) runs).Sorted
          (fun a b : RunResult => a.score ≤ b.score))
    ∧ (aggregateGroup key runs).auditData
        = ((List.insertionSort (fun a b : RunResult => a.score ≤ b.score) runs).getD
            (runs.length / 2) defaultRun).auditData
    ∧ (aggregateGroup key runs).medianScore = jsRoundQ (median (runs.map (·.score)))
    ∧ (aggregateGroup key runs).medianLcp = median (runs.map (·.lcp.numeric))
    ∧ (aggregateGroup key runs).medianFcp = median (runs.map (·.fcp.numeric))
    ∧ (aggregateGroup key runs).medianCls = median (runs.map (·.cls.numeric))
    ∧ (aggregateGroup key runs).medianTbt = median (runs.map (·.tbt.numeric))
    ∧ (aggregateGroup key runs).runs = runs.length
    ∧ (aggregateGroup key runs).individualRuns = runs :=
  ⟨⟨(List.perm_insertionSort _ runs).symm, List.sorted_insertionSort _ runs⟩,
    rfl, rfl, rfl, rfl, rfl, rfl, rfl, rfl⟩

/-- A concrete run with the given score and a distinguishable audit payload. -/
def mkRun (score : ℚ) (tag : String) : RunResult :=
  { defaultRun with
    score := score,
    url := "https://a.com",
    auditData := { defaultRun.auditData with url := tag } }

/-- Witness for claim C5: three runs with scores [80, 90, 100] aggregate to
`medianScore = 90` with the score-90 run's audit payload. -/
theorem aggregate_median_run_and_rounding_witness :
    (aggregateGroup "https://a.com|desktop"
        [mkRun 80 "run80", mkRun 90 "run90", mkRun 100 "run100"]).medianScore = 90
    ∧ (aggregateGroup "https://a.com|desktop"
        [mkRun 80 "run80", mkRun 90 "run90", mkRun 100 "run100"]).auditData
      = (mkRun 90 "run90").auditData := by
  have h := aggregate_median_run_and_rounding "https://a.com|desktop"
    [mkRun 80 "run80", mkRun 90 "run90", mkRun 100 "run100"] (by simp)
  have hscores : List.map (fun x : RunResult => x.score)
      [mkRun 80 "run80", mkRun 90 "run90", mkRun 100 "run100"] = [80, 90, 100] := rfl
  have hmed : median [(80 : ℚ), 90, 100] = 90 := by
    norm_num [median, List.insertionSort, List.orderedInsert]
  have hfl : ⌊(90 : ℚ) + 1/2⌋ = 90 := by
    rw [Int.floor_eq_iff] <;> norm_num
  have hsorted : List.insertionSort (fun a b : RunResult => a.score ≤ b.score)
      [mkRun 80 "run80", mkRun 90 "run90", mkRun 100 "run100"]
      = [mkRun 80 "run80", mkRun 90 "run90", mkRun 100 "run100"] := by
    norm_num [List.insertionSort, List.orderedInsert, mkRun, defaultRun]
  refine ⟨?_, ?_⟩
  · rw [h.2.2.1, hscores, hmed]
    simp [jsRoundQ, hfl]
    all_goals norm_num
  · rw [h.2.1, hsorted]
    rfl

/-! ## Grouping lemmas (claim C8) -/

/-- The runs grouped under key `k` (empty when the key is absent). -/
def lookupG : List (String × List RunResult) → String → List RunResult
  | [], _ => []
  | g :: rest, k => if g.1 = k then g.2 else lookupG rest k

/-- `addToGroups` appends the run to its key's group and leaves other keys alone. -/
lemma lookupG_addToGroups (gs : List (String × List RunResult)) (key : String)
    (r : RunResult) (k : String) :
    lookupG (addToGroups gs key r) k
      = if k = key then lookupG gs k ++ [r] else lookupG gs k := by
  induction gs with
  | nil =>
    by_cases h : k = key
    · subst h; simp [addToGroups, lookupG]
    · rw [if_neg h]
      show (if key = k then [r] else []) = lookupG [] k
      rw [if_neg (fun hh => h hh.symm)]
      rfl
  | cons g rest ih =>
    obtain ⟨gk, grs⟩ := g
    by_cases h1 : gk = key
    · subst h1
      by_cases h2 : gk = k
      · subst h2; simp [addToGroups, lookupG]
      · rw [addToGroups, if_pos rfl]
        show lookupG ((gk, grs ++ [r]) :: rest) k = _
        rw [lookupG, if_neg h2, if_neg (fun hh => h2 hh.symm), lookupG, if_neg h2]
    · rw [addToGroups, if_neg h1]
      by_cases h2 : gk = k
      · subst h2
        rw [lookupG, if_pos rfl, if_neg h1, lookupG, if_pos rfl]
      · rw [lookupG, if_neg h2, ih, lookupG, if_neg h2]

/-- Folding the grouping step accumulates, per key, exactly the filter of the
processed results. -/
lemma lookupG_foldl (results : List RunResult) :
    ∀ (acc : List (String × List RunResult)) (k : String),
      lookupG (results.foldl (fun gs r => addToGroups gs (keyOf r) r) acc) k
        = lookupG acc k ++ results.filter (fun r => keyOf r = k) := by
  induction results with
  | nil => intro acc k; simp
  | cons r rest ih =>
    intro acc k
    simp only [List.foldl_cons, List.filter_cons]
    rw [ih, lookupG_addToGroups]
    by_cases h : k = keyOf r
    · rw [if_pos h]
      simp [h.symm, List.append_assoc]
    · rw [if_neg h]
      simp [show ¬ keyOf r = k from fun hh => h hh.symm]

/-- The group of key `k` holds exactly the results whose key is `k`. -/
lemma lookupG_groupRuns (results : List RunResult) (k : String) :
    lookupG (groupRuns results) k = results.filter (fun r => keyOf r = k) := by
  have h := lookupG_foldl results [] k
  simpa [groupRuns, lookupG] using h

/-- Every member of a group produced by `addToGroups` carries the group's key,
provided the same held before and the run is added under its own key. -/
lemma wf_addToGroups (gs : List (String × List RunResult)) (r : RunResult)
    (h : ∀ g ∈ gs, ∀ x ∈ g.2, keyOf x = g.1) :
    ∀ g ∈ addToGroups gs (keyOf r) r, ∀ x ∈ g.2, keyOf x = g.1 := by
  induction gs with
  | nil =>
    intro g hg x hx
    simp [addToGroups] at hg
    subst hg
    simp at hx
    subst hx
    rfl
  | cons g0 rest ih =>
    obtain ⟨gk, grs⟩ := g0
    intro g hg x hx
    by_cases h1 : gk = keyOf r
    · rw [addToGroups, if_pos h1] at hg
      rcases List.mem_cons.mp hg with hg | hg
      · subst hg
        rcases List.mem_append.mp hx with hx | hx
        · exact h (gk, grs) (List.mem_cons_self _ _) x hx
        · simp at hx
          subst hx
          exact h1.symm
      · exact h g (List.mem_cons_of_mem _ hg) x hx
    · rw [addToGroups, if_neg h1] at hg
      rcases List.mem_cons.mp hg with hg | hg
      · subst hg
        exact h (gk, grs) (List.mem_cons_self _ _) x hx
      · exact ih (fun g' hg' => h g' (List.mem_cons_of_mem _ hg')) g hg x hx

/-- Every member of every group of `groupRuns` carries the group's key. -/
lemma wf_groupRuns (results : List RunResult) :
    ∀ g ∈ groupRuns results, ∀ x ∈ g.2, keyOf x = g.1 := by
  suffices h : ∀ (acc : List (String × List RunResult)),
      (∀ g ∈ acc, ∀ x ∈ g.2, keyOf x = g.1) →
      ∀ g ∈ results.foldl (fun gs r => addToGroups gs (keyOf r) r) acc,
        ∀ x ∈ g.2, keyOf x = g.1 by
    exact h [] (by simp)
  induction results with
  | nil => intro acc hacc; simpa using hacc
  | cons r rest ih =>
    intro acc hacc
    simp only [List.foldl_cons]
    exact ih _ (wf_addToGroups acc r hacc)

/-- A key with a non-empty group names an actual group of the map. -/
lemma lookupG_mem (gs : List (String × List RunResult)) (k : String)
    (h : lookupG gs k ≠ []) :
    ∃ g ∈ gs, g.1 = k ∧ g.2 = lookupG gs k := by
  induction gs with
  | nil => simp [lookupG] at h
  | cons g rest ih =>
    by_cases h1 : g.1 = k
    · exact ⟨g, List.mem_cons_self _ _, h1, by simp [lookupG, h1]⟩
    · rw [lookupG, if_neg h1] at h
      obtain ⟨g', hg', hk, hl⟩ := ih h
      exact ⟨g', List.mem_cons_of_mem _ hg', hk, by simp [lookupG, h1, hl]⟩

/-- Two runs' group keys coincide exactly when url and strategy both coincide
(strategies are only ever `"desktop"` or `"mobile"`, so the key is injective
even for urls containing the separator). -/
lemma keyOf_inj (r1 r2 : RunResult) :
    keyOf r1 = keyOf r2 ↔ r1.url = r2.url ∧ r1.strategy = r2.strategy := by
  constructor
  · intro h
    have hd := congrArg String.data h
    simp only [keyOf, String.data_append] at hd
    have hstr : r1.strategy = r2.strategy := by
      cases hs1 : r1.strategy <;> cases hs2 : r2.strategy <;> rw [hs1, hs2] at hd <;>
        first
          | rfl
          | (exfalso
             have hrev := congrArg List.reverse hd
             simp only [List.reverse_append] at hrev
             have h1 : (strategyStr Strategy.desktop).data.reverse
                 = ['p', 'o', 't', 'k', 's', 'e', 'd'] := rfl
             have h2 : (strategyStr Strategy.mobile).data.reverse
                 = ['e', 'l', 'i', 'b', 'o', 'm'] := rfl
             rw [h1, h2] at hrev
             simp at hrev)
    refine ⟨?_, hstr⟩
    rw [hstr] at hd
    have hu : r1.url.data = r2.url.data := by
      have := List.append_cancel_right hd
      exact List.append_cancel_right this
    have hext : ∀ (a b : String), a.data = b.data → a = b := by
      intro a b hab
      cases a
      cases b
      exact congrArg String.mk hab
    exact hext _ _ hu
  · rintro ⟨hu, hs⟩
    rw [keyOf, keyOf, hu, hs]

/-- Splitting at the first separator after a separator-free prefix. -/
lemma splitChar_append (c : Char) (u v : List Char) (hu : c ∉ u) :
    splitChar c (u ++ c :: v) = u :: splitChar c v := by
  induction u with
  | nil => simp [splitChar]
  | cons x xs ih =>
    have hx : ¬ x = c := fun hh => hu (hh ▸ List.mem_cons_self x xs)
    have ih' := ih (fun hm => hu (List.mem_cons_of_mem _ hm))
    simp only [List.cons_append, splitChar, if_neg hx]
    rw [List.append_eq, ih']

/-- For a url free of the separator, `key.split('|')` recovers
`[url, strategy]` from the group key. -/
lemma jsSplit_keyOf (r : RunResult) (hu : '|' ∉ r.url.data) :
    jsSplit (keyOf r) '|' = [r.url, strategyStr r.strategy] := by
  have hmk : ∀ s : String, String.mk s.data = s := fun s => by cases s; rfl
  have hdata : (r.url ++ "|" ++ strategyStr r.strategy).data
      = r.url.data ++ '|' :: (strategyStr r.strategy).data := by
    simp [String.data_append, List.append_assoc]
  unfold jsSplit keyOf
  rw [hdata, splitChar_append '|' r.url.data _ hu]
  have hd : (splitChar '|' (strategyStr Strategy.desktop).data).map String.mk
      = [strategyStr Strategy.desktop] := rfl
  have hm : (splitChar '|' (strategyStr Strategy.mobile).data).map String.mk
      = [strategyStr Strategy.mobile] := rfl
  cases hs : r.strategy <;> simp [List.map_cons, hmk, hd, hm]

/-- Two runs land in one group of `executeRuns`' grouping map. -/
def sameGroup (results : List RunResult) (r1 r2 : RunResult) : Prop :=
  ∃ g ∈ groupRuns results, r1 ∈ g.2 ∧ r2 ∈ g.2

/-- A run whose url contains the group-key separator. -/
def pipeRun : RunResult := { defaultRun with url := "https://a.com|x" }

/-- Counterexample to claim C8 as stated: aggregating the single run with url
`"https://a.com|x"` (strategy desktop) produces an aggregate whose `url` is
`"https://a.com"` and whose `strategy` is `"x"` — `key.split('|')` does not
carry the group's url and strategy through unchanged. -/
theorem aggregate_url_mangled_counterexample :
    (executeRunsAggregate [pipeRun]).map (fun m => (m.url, m.strategy))
      = [("https://a.com", "x")]
    ∧ pipeRun.url = "https://a.com|x"
    ∧ pipeRun.strategy = .desktop
    ∧ ("https://a.com" : String) ≠ "https://a.com|x" ∧ ("x" : String) ≠ "desktop" := by
  exact ⟨rfl, rfl, rfl, by decide, by decide⟩

/-- Claim C8 amended: aggregation groups by the exact (url, strategy) pair —
two results share a group exactly when both components coincide (the key is
injective because strategies are only `"desktop"`/`"mobile"`); every
aggregate comes from one group; and the aggregate's `url`/`strategy` fields,
being read back by splitting the key at `'|'`, equal the group's url and
strategy whenever the url contains no `'|'` character (the counterexample
shows they differ otherwise). -/
theorem grouping_exact_and_key_roundtrip (results : List RunResult) :
    (∀ r1 ∈ results, ∀ r2 ∈ results,
        (sameGroup results r1 r2 ↔ r1.url = r2.url ∧ r1.strategy = r2.strategy))
    ∧ (∀ m ∈ executeRunsAggregate results, ∃ g ∈ groupRuns results,
        m = aggregateGroup g.1 g.2)
    ∧ (∀ r ∈ results, '|' ∉ r.url.data →
        ∃ m ∈ executeRunsAggregate results,
          m.url = r.url ∧ m.strategy = strategyStr r.strategy
          ∧ r ∈ m.individualRuns) := by
  refine ⟨?_, ?_, ?_⟩
  · intro r1 h1 r2 h2
    constructor
    · rintro ⟨g, hg, hm1, hm2⟩
      have k1 := wf_groupRuns results g hg r1 hm1
      have k2 := wf_groupRuns results g hg r2 hm2
      exact (keyOf_inj r1 r2).mp (k1.trans k2.symm)
    · rintro ⟨hu, hs⟩
      have hkey : keyOf r1 = keyOf r2 := (keyOf_inj r1 r2).mpr ⟨hu, hs⟩
      have hl := lookupG_groupRuns results (keyOf r1)
      have hr1 : r1 ∈ lookupG (groupRuns results) (keyOf r1) := by
        rw [hl]; exact List.mem_filter.mpr ⟨h1, by simp⟩
      have hr2 : r2 ∈ lookupG (groupRuns results) (keyOf r1) := by
        rw [hl]; exact List.mem_filter.mpr ⟨h2, by simp [hkey.symm]⟩
      have hne : lookupG (groupRuns results) (keyOf r1) ≠ [] := by
        intro hh; rw [hh] at hr1; simp at hr1
      obtain ⟨g, hg, _, hl2⟩ := lookupG_mem _ _ hne
      exact ⟨g, hg, by rw [hl2]; exact hr1, by rw [hl2]; exact hr2⟩
  · intro m hm
    obtain ⟨g, hg, heq⟩ := List.mem_map.mp hm
    exact ⟨g, hg, heq.symm⟩
  · intro r hr hnp
    have hl := lookupG_groupRuns results (keyOf r)
    have hrmem : r ∈ lookupG (groupRuns results) (keyOf r) := by
      rw [hl]; exact List.mem_filter.mpr ⟨hr, by simp⟩
    have hne : lookupG (groupRuns results) (keyOf r) ≠ [] := by
      intro hh; rw [hh] at hrmem; simp at hrmem
    obtain ⟨g, hg, hk, hl2⟩ := lookupG_mem _ _ hne
    refine ⟨aggregateGroup g.1 g.2, List.mem_map_of_mem _ hg, ?_, ?_, ?_⟩
    · rw [hk]
      show (jsSplit (keyOf r) '|').getD 0 "" = r.url
      rw [jsSplit_keyOf r hnp]
      rfl
    · rw [hk]
      show (jsSplit (keyOf r) '|').getD 1 "" = strategyStr r.strategy
      rw [jsSplit_keyOf r hnp]
      rfl
    · show r ∈ g.2
      rw [hl2]
      exact hrmem

/-- Witness for the amended claim C8: two same-pair runs group together, a
different strategy splits them apart, and the aggregate of a plain url
carries url and strategy through unchanged. -/
theorem grouping_exact_and_key_roundtrip_witness :
    sameGroup [mkRun 80 "run80", mkRun 90 "run90"] (mkRun 80 "run80") (mkRun 90 "run90")
    ∧ ¬ sameGroup [mkRun 80 "run80", { mkRun 90 "run90" with strategy := .mobile }]
        (mkRun 80 "run80") { mkRun 90 "run90" with strategy := .mobile }
    ∧ ∃ m ∈ executeRunsAggregate [mkRun 80 "run80"],
        m.url = "https://a.com" ∧ m.strategy = "desktop"
        ∧ mkRun 80 "run80" ∈ m.individualRuns := by
  refine ⟨?_, ?_, ?_⟩
  · exact ((grouping_exact_and_key_roundtrip [mkRun 80 "run80", mkRun 90 "run90"]).1
      (mkRun 80 "run80") (by simp) (mkRun 90 "run90") (by simp)).mpr ⟨rfl, rfl⟩
  · intro hsg
    have h := ((grouping_exact_and_key_roundtrip
        [mkRun 80 "run80", { mkRun 90 "run90" with strategy := .mobile }]).1
      (mkRun 80 "run80") (by simp)
      { mkRun 90 "run90" with strategy := .mobile } (by simp)).mp hsg
    exact absurd h.2 (by decide)
  · have h := (grouping_exact_and_key_roundtrip [mkRun 80 "run80"]).2.2
      (mkRun 80 "run80") (by simp) (by decide)
    obtain ⟨m, hm, hu, hs, hi⟩ := h
    exact ⟨m, hm, by rw [hu]; rfl, by rw [hs]; rfl, hi⟩

end InsightsAI
